import Mathlib

/-
Verification of the dotconfig library (DeanPDX/dotconfig).

The embedding models Go strings as lists of characters and the process
environment (the shared key/value store) as a function from keys to
optional values.  The input stream is modelled as the sequence of lines
produced by the line scanner (bufio.Scanner with the default line split).

Each definition mirrors one function of the Go source:
  - trimSpace, indexOfSub, ...     model package strings helpers
  - lineKV / processLine / parseLines   model the loop body of FromReader
  - goParseBool / goParseUint64 / goParseInt64  model strconv parsing
    with base 10 and bitSize 64 as called by fromEnv
  - decodeField / fromEnvFields / fromEnv  model fromEnv
  - FromReader / FromFileName      model the two entry points
  - extractErrors / Errors         model joinerror.go
-/

namespace Dotconfig

/-- Go unicode.IsSpace: Unicode White_Space property. -/
def goIsSpace (c : Char) : Bool :=
  let n := c.toNat
  n == 9 || n == 10 || n == 11 || n == 12 || n == 13 || n == 32 ||
  n == 0x85 || n == 0xA0 || n == 0x1680 ||
  (decide (0x2000 ≤ n) && decide (n ≤ 0x200A)) ||
  n == 0x2028 || n == 0x2029 || n == 0x202F || n == 0x205F || n == 0x3000

/-- Go strings.TrimSpace: drop White_Space characters from both ends. -/
def trimSpace (s : List Char) : List Char :=
  (((s.dropWhile goIsSpace).reverse).dropWhile goIsSpace).reverse

/-- Go strings.HasPrefix. -/
def startsWith (p s : List Char) : Bool := p.isPrefixOf s

/-- Go strings.Index: index of the first occurrence of sub in s
(character index; the searched substrings are ASCII so byte and rune
indices agree), none when absent. -/
def indexOfSub (sub : List Char) : List Char → Option Nat
  | [] => if sub.isEmpty then some 0 else none
  | c :: rest =>
    if sub.isPrefixOf (c :: rest) then some 0
    else (indexOfSub sub rest).map Nat.succ

/-- Go strings.Contains. -/
def containsSub (sub s : List Char) : Bool := (indexOfSub sub s).isSome

/-- Go strings.TrimPrefix: drop p from the front of s when present. -/
def dropPre (p s : List Char) : List Char :=
  if p.isPrefixOf s then s.drop p.length else s

/-- Go strings.TrimSuffix: drop p from the end of s when present. -/
def dropSuf (p s : List Char) : List Char :=
  if p.isSuffixOf s then s.take (s.length - p.length) else s

/-- Go strings.ReplaceAll(value, backslash-n, newline): each literal
two-character backslash-n sequence becomes one newline character,
scanning left to right without overlap. -/
def expandNewlines : List Char → List Char
  | [] => []
  | '\\' :: 'n' :: rest => '\n' :: expandNewlines rest
  | c :: rest => c :: expandNewlines rest

/-- The quote-stripping step of FromReader: if the value starts with a
single quote, trim one closing then one opening single quote
(each only when present); likewise for double quotes. -/
def unquote (value : List Char) : List Char :=
  if startsWith ['\''] value then dropPre ['\''] (dropSuf ['\''] value)
  else if startsWith ['"'] value then dropPre ['"'] (dropSuf ['"'] value)
  else value

/-- The shared key/value store (the process environment). -/
abbrev Store := List Char → Option (List Char)

/-- The store collaborator's set operation (os.Setenv), modelled from the
spec's store interface: upsert, last writer wins. -/
def setEnv (k v : List Char) (s : Store) : Store :=
  fun q => if q = k then some v else s q

def emptyStore : Store := fun _ => none

/-- The key/value pair an input line contributes, following the loop body
of FromReader: trim the line; skip blank lines, comment lines and lines
without an equals sign; split at the first equals sign; strip an inline
comment introduced by space-hash; strip quotes; expand backslash-n. -/
def lineKV (raw : List Char) : Option (List Char × List Char) :=
  let line := trimSpace raw
  if line.isEmpty || startsWith ['#'] line || !containsSub ['='] line then
    none
  else
    match indexOfSub ['='] line with
    | none => none
    | some i =>
      let key := line.take i
      let value := line.drop (i + 1)
      let value :=
        match indexOfSub [' ', '#'] value with
        | some j => value.take j
        | none => value
      some (key, expandNewlines (unquote value))

/-- One iteration of the FromReader scanner loop: publish the line's pair
into the store, or leave the store unchanged for skipped lines. -/
def processLine (s : Store) (raw : List Char) : Store :=
  match lineKV raw with
  | none => s
  | some kv => setEnv kv.1 kv.2 s

/-- The full scanner loop of FromReader over the stream's lines. -/
def parseLines (s : Store) (lines : List (List Char)) : Store :=
  lines.foldl processLine s

/-! strconv, as called by fromEnv: ParseBool, ParseInt(s, 10, 64),
ParseUint(s, 10, 64). -/

def truthyTokens : List (List Char) :=
  [['1'], ['t'], ['T'], "true".toList, "TRUE".toList, "True".toList]

def falsyTokens : List (List Char) :=
  [['0'], ['f'], ['F'], "false".toList, "FALSE".toList, "False".toList]

/-- Go strconv.ParseBool: some b on the twelve canonical tokens, none
(meaning an error together with the zero value false) otherwise. -/
def goParseBool (s : List Char) : Option Bool :=
  if s ∈ truthyTokens then some true
  else if s ∈ falsyTokens then some false
  else none

inductive NumErr where
  | syntaxErr
  | rangeErr
deriving DecidableEq

def maxUint64 : Nat := 2 ^ 64 - 1

/-- strconv's cutoff for base 10, bitSize 64: the smallest n with
n * 10 overflowing uint64. -/
def uintCutoff : Nat := maxUint64 / 10 + 1

/-- The digit loop of strconv.ParseUint with base 10 and bitSize 64.
A non-digit character yields (0, syntax error); overflow yields
(maxUint64, range error). -/
def parseUintLoop : List Char → Nat → Nat × Option NumErr
  | [], n => (n, none)
  | c :: rest, n =>
    if '0' ≤ c ∧ c ≤ '9' then
      let d := c.toNat - '0'.toNat
      if uintCutoff ≤ n then (maxUint64, some .rangeErr)
      else
        let n1 := n * 10 + d
        if maxUint64 < n1 then (maxUint64, some .rangeErr)
        else parseUintLoop rest n1
    else (0, some .syntaxErr)

/-- Go strconv.ParseUint(s, 10, 64): value together with the error kind
(the caller in fromEnv discards the error). -/
def goParseUint64 (s : List Char) : Nat × Option NumErr :=
  if s.isEmpty then (0, some .syntaxErr) else parseUintLoop s 0

def maxInt64 : Int := 2 ^ 63 - 1
def minInt64 : Int := -(2 ^ 63)

/-- Go strconv.ParseInt(s, 10, 64): strip one leading sign, parse the
rest as unsigned with bitSize 64, then range-check against int64;
on range overflow the result saturates at maxInt64 / minInt64. -/
def goParseInt64 (s : List Char) : Int × Option NumErr :=
  if s.isEmpty then (0, some .syntaxErr)
  else
    let signRest : Bool × List Char :=
      match s with
      | '+' :: rest => (false, rest)
      | '-' :: rest => (true, rest)
      | _ => (false, s)
    let neg := signRest.1
    let pu := goParseUint64 signRest.2
    let un := pu.1
    match pu.2 with
    | some .syntaxErr => (0, some .syntaxErr)
    | _ =>
      if !neg && 2 ^ 63 ≤ un then (maxInt64, some .rangeErr)
      else if neg && 2 ^ 63 < un then (minInt64, some .rangeErr)
      else ((if neg then -(un : Int) else (un : Int)), none)

/-- reflect.Value.SetInt into a signed field of width w bits: the int64
argument is converted by two's-complement truncation. -/
def wrapInt (w : Nat) (v : Int) : Int :=
  let r := v % (2 ^ w : Int)
  if r < 2 ^ (w - 1) then r else r - 2 ^ w

/-! The field decoder (fromEnv). -/

/-- The reflect.Kind of a struct field's type, with the bit width where
the conversion depends on it.  unsupported covers every kind outside
the switch in fromEnv and carries the type name used in the error. -/
inductive FieldKind where
  | bool
  | int (bits : Nat)
  | uint (bits : Nat)
  | float (bits : Nat)
  | string
  | unsupported (typeName : List Char)
deriving DecidableEq

/-- One field of the target struct type: name, settability
(reflect CanSet; false for unexported fields), the env struct tag
(empty means absent), the default struct tag, and the field kind. -/
structure StructField where
  name : List Char
  canSet : Bool
  envTag : List Char
  defaultTag : List Char
  kind : FieldKind
deriving DecidableEq

/-- The value held by one struct field after decoding.  A float value is
kept symbolically as the ParseFloat input together with the bit width;
none marks the float zero value.  vzero is the zero value of a field of
unsupported kind. -/
inductive FieldValue where
  | vbool (b : Bool)
  | vint (z : Int)
  | vuint (n : Nat)
  | vfloat (parsedFrom : Option (List Char)) (bits : Nat)
  | vstring (s : List Char)
  | vzero
deriving DecidableEq

/-- The zero value of a field of the given kind (fields of a freshly
declared struct variable start at their zero value). -/
def zeroValue : FieldKind → FieldValue
  | .bool => .vbool false
  | .int _ => .vint 0
  | .uint _ => .vuint 0
  | .float b => .vfloat none b
  | .string => .vstring []
  | .unsupported _ => .vzero

/-- The per-field error values built in fromEnv (each one wraps the
corresponding sentinel error with the field name, key or type name). -/
inductive DecodeError where
  | missingStructTag (fieldName : List Char)
  | missingEnvVar (key : List Char)
  | missingRequiredField (key : List Char)
  | unsupportedFieldType (typeName : List Char)
deriving DecidableEq

inductive DecodeOption where
  | returnFileIOErrors
  | enforceStructTags
  | allowWhitespace
deriving DecidableEq

structure Options where
  returnFileIOErrors : Bool
  enforceStructTags : Bool
  allowWhitespace : Bool
deriving DecidableEq

/-- optsFromVariadic from dotconfig.go. -/
def optsFromVariadic (opts : List DecodeOption) : Options :=
  opts.foldl (fun v opt =>
    match opt with
    | .returnFileIOErrors => { v with returnFileIOErrors := true }
    | .enforceStructTags => { v with enforceStructTags := true }
    | .allowWhitespace => { v with allowWhitespace := true })
    ⟨false, false, false⟩

/-- Go strings.Cut(s, comma): split at the first comma. -/
def cutComma : List Char → List Char × List Char × Bool
  | [] => ([], [], false)
  | c :: rest =>
    if c = ',' then ([], rest, true)
    else
      let r := cutComma rest
      (c :: r.1, r.2.1, r.2.2)

/-- parseTag from tags file: tag text before the first comma is the env
key, the rest is the comma-separated option list. -/
def parseTag (tag : List Char) : List Char × List Char :=
  let c := cutComma tag
  (c.1, c.2.1)

/-- The loop of tagOptions.Contains, fused with strings.Cut: accumulate
the current comma-separated name (reversed), and at each comma or at the
end of the string compare the trimmed name with the option name.  As in
the Go loop (which exits when the remainder becomes empty), the segment
after a trailing comma is never compared. -/
def tagContainsAux (optionName : List Char) (acc : List Char) :
    List Char → Bool
  | [] => trimSpace acc.reverse = optionName
  | c :: rest =>
    if c = ',' then
      if trimSpace acc.reverse = optionName then true
      else
        match rest with
        | [] => false
        | _ => tagContainsAux optionName [] rest
    else tagContainsAux optionName (c :: acc) rest

/-- tagOptions.Contains from the tags file. -/
def tagContains (o optionName : List Char) : Bool :=
  if o.length = 0 then false else tagContainsAux optionName [] o

def optionalOpt : List Char := "optional".toList
def requiredOpt : List Char := "required".toList

/-- The tail of the fromEnv loop body once an env value has been
resolved (from the store or from the default tag): trim unless
AllowWhitespace, handle the empty value (required check, field stays at
zero, no conversion), otherwise convert per field kind.  Conversion
errors of strconv are discarded; reflect SetInt/SetUint truncate to the
field width. -/
def decodeValue (opts : Options) (envKey tagOpts : List Char)
    (kind : FieldKind) (envValue : List Char) : FieldValue × Option DecodeError :=
  let v := if opts.allowWhitespace then envValue else trimSpace envValue
  if v.isEmpty then
    (zeroValue kind,
      if tagContains tagOpts requiredOpt then some (.missingRequiredField envKey)
      else none)
  else
    match kind with
    | .bool => (.vbool ((goParseBool v).getD false), none)
    | .int w => (.vint (wrapInt w (goParseInt64 v).1), none)
    | .uint w => (.vuint ((goParseUint64 v).1 % 2 ^ w), none)
    | .float w => (.vfloat (some v) w, none)
    | .string => (.vstring v, none)
    | .unsupported tn => (zeroValue kind, some (.unsupportedFieldType tn))

/-- One iteration of the fromEnv field loop: skip unsettable fields,
handle a missing env tag (error only under EnforceStructTags), look the
key up in the store, fall back to the default tag or the optional
modifier when absent, then convert.  Returns the field's final value and
its at most one error contribution. -/
def decodeField (opts : Options) (store : Store) (f : StructField) :
    FieldValue × Option DecodeError :=
  if !f.canSet then (zeroValue f.kind, none)
  else if f.envTag.isEmpty then
    (zeroValue f.kind,
      if opts.enforceStructTags then some (.missingStructTag f.name) else none)
  else
    let pt := parseTag f.envTag
    let envKey := pt.1
    let tagOpts := pt.2
    match store envKey with
    | some envValue => decodeValue opts envKey tagOpts f.kind envValue
    | none =>
      if !f.defaultTag.isEmpty then
        decodeValue opts envKey tagOpts f.kind f.defaultTag
      else if tagContains tagOpts optionalOpt then (zeroValue f.kind, none)
      else (zeroValue f.kind, some (.missingEnvVar envKey))

/-- The fromEnv field loop: one pass over the fields in declaration
order, setting each field and appending each field's error (joinError.Add)
to the growing collection. -/
def fromEnvFields (opts : Options) (store : Store) (fields : List StructField) :
    List FieldValue × List DecodeError :=
  fields.foldl (fun acc f =>
    let r := decodeField opts store f
    (acc.1 ++ [r.1],
      match r.2 with
      | some e => acc.2 ++ [e]
      | none => acc.2))
    ([], [])

/-- The target type as seen by reflect.TypeOf on the zero value of T:
a struct type with its fields, a non-struct non-interface kind (pointer,
map, a scalar, ...), or an interface kind, for which reflect.TypeOf of
the nil interface zero value returns the nil type descriptor. -/
inductive ConfigType where
  | structTy (fields : List StructField)
  | nonStructTy (kindName : List Char)
  | interfaceTy
deriving DecidableEq

/-- The top-level error value returned by the decode entry points:
the bare ErrConfigMustBeStruct sentinel, the joinError collection, or an
os.Open error surfaced under ReturnFileIOErrors. -/
inductive GoError where
  | configMustBeStruct
  | collection (errs : List DecodeError)
  | ioError
deriving DecidableEq

/-- The returned config value: a populated record for struct targets, or
the untouched zero value of a non-struct type. -/
inductive DecodeResultValue where
  | record (fields : List FieldValue)
  | zeroOfNonStruct
deriving DecidableEq

/-- What a call to fromEnv does: return a value and an optional error,
or panic (calling Kind() on the nil reflect.Type of an interface target
dereferences a nil pointer). -/
inductive FromEnvOutcome where
  | panics
  | returns (value : DecodeResultValue) (err : Option GoError)
deriving DecidableEq

/-- fromEnv from dotconfig.go. -/
def fromEnv (opts : Options) (store : Store) (ty : ConfigType) : FromEnvOutcome :=
  match ty with
  | .interfaceTy => .panics
  | .nonStructTy _ => .returns .zeroOfNonStruct (some .configMustBeStruct)
  | .structTy fields =>
    let r := fromEnvFields opts store fields
    .returns (.record r.1)
      (if r.2.isEmpty then none else some (.collection r.2))

/-- FromReader: parse the stream's lines into the store, then decode
from the updated store.  The updated store is returned as part of the
state-passing embedding of the os.Setenv side effect. -/
def FromReader (lines : List (List Char)) (opts : List DecodeOption)
    (store : Store) (ty : ConfigType) : Store × FromEnvOutcome :=
  let store2 := parseLines store lines
  (store2, fromEnv (optsFromVariadic opts) store2 ty)

/-- The zero value of the target type, as returned on the
ReturnFileIOErrors early exit. -/
def zeroResult : ConfigType → DecodeResultValue
  | .structTy fields => .record (fields.map fun f => zeroValue f.kind)
  | _ => .zeroOfNonStruct

/-- FromFileName: the file is modelled as its optional line list (none
when os.Open fails).  On open failure: return the I/O error under
ReturnFileIOErrors, otherwise decode from the pre-existing store with
the parsed options.  On success the source calls FromReader without
forwarding opts, so the variadic options are dropped on that path. -/
def FromFileName (file : Option (List (List Char))) (opts : List DecodeOption)
    (store : Store) (ty : ConfigType) : Store × FromEnvOutcome :=
  match file with
  | none =>
    let ops := optsFromVariadic opts
    if ops.returnFileIOErrors then (store, .returns (zeroResult ty) (some .ioError))
    else (store, fromEnv ops store ty)
  | some lines => FromReader lines [] store ty

/-! joinerror.go.  A Go error value is nil, a joinError value (whose
errs slice may itself be the nil slice, modelled as none), or any other
error value. -/

inductive GoErrVal where
  | simple (tag : Nat)
  | joined (errs : Option (List GoErrVal))

/-- extractErrors from joinerror.go: nil in, nil out; a joinError gives
its errs slice; any other error gives the one-element slice. -/
def extractErrors : Option GoErrVal → Option (List GoErrVal)
  | none => none
  | some (.joined errs) => errs
  | some (.simple t) => some [.simple t]

/-- Errors from joinerror.go. -/
def Errors (err : Option GoErrVal) : Option (List GoErrVal) :=
  extractErrors err

/-! Specification-side definitions used to state the theorems. -/

/-- The value line l would store under key k, none when l does not
assign k. -/
def lineAssigns (l : List Char) (k : List Char) : Option (List Char) :=
  match lineKV l with
  | some kv => if kv.1 = k then some kv.2 else none
  | none => none

/-- The value the last line of the stream assigning key k stores, none
when no line assigns k. -/
def lastAssign : List (List Char) → List Char → Option (List Char)
  | [], _ => none
  | l :: ls, k => (lastAssign ls k).or (lineAssigns l k)

/-- A decoded field value is well formed for its declared kind; signed
and unsigned integer values lie within the declared bit width. -/
def kindCompatible : FieldKind → FieldValue → Prop
  | .bool, v => ∃ b, v = .vbool b
  | .int w, v => ∃ z, v = .vint z ∧ -(2 ^ (w - 1) : Int) ≤ z ∧ z < 2 ^ (w - 1)
  | .uint w, v => ∃ n, v = .vuint n ∧ n < 2 ^ w
  | .float bits, v => ∃ src, v = .vfloat src bits
  | .string, v => ∃ s, v = .vstring s
  | .unsupported _, v => v = .vzero

/-! Helper lemmas. -/

theorem processLine_or (s : Store) (l : List Char) (k : List Char) :
    processLine s l k = (lineAssigns l k).or (s k) := by
  unfold processLine lineAssigns
  cases hkv : lineKV l with
  | none => simp
  | some kv =>
    simp only [setEnv]
    by_cases hk : kv.1 = k
    · subst hk; simp
    · have hk2 : k ≠ kv.1 := fun h => hk h.symm
      simp [hk, hk2]

theorem parseLines_lookup (L : List (List Char)) :
    ∀ (s : Store) (k : List Char),
      parseLines s L k = (lastAssign L k).or (s k) := by
  induction L with
  | nil => intro s k; simp [parseLines, lastAssign]
  | cons l ls ih =>
    intro s k
    have h1 : parseLines s (l :: ls) = parseLines (processLine s l) ls := rfl
    rw [h1, ih, lastAssign, Option.or_assoc, processLine_or]

theorem lastAssign_none (L : List (List Char)) (k : List Char)
    (h : ∀ l ∈ L, (lineKV l).map Prod.fst ≠ some k) :
    lastAssign L k = none := by
  induction L with
  | nil => rfl
  | cons l ls ih =>
    have hl : (lineKV l).map Prod.fst ≠ some k := h l (by simp)
    have hls := ih fun x hx => h x (by simp [hx])
    simp only [lastAssign, hls, Option.none_or, lineAssigns]
    cases hkv : lineKV l with
    | none => rfl
    | some kv =>
      have : kv.1 ≠ k := by
        intro hk
        exact hl (by simp [hkv, hk])
      simp [this]

theorem lastAssign_append_last (L1 L2 : List (List Char))
    (l : List Char) (k v : List Char)
    (hl : lineKV l = some (k, v))
    (h2 : ∀ x ∈ L2, (lineKV x).map Prod.fst ≠ some k) :
    lastAssign (L1 ++ l :: L2) k = some v := by
  induction L1 with
  | nil =>
    simp only [List.nil_append, lastAssign, lastAssign_none L2 k h2,
      Option.none_or, lineAssigns, hl]
    simp
  | cons x L1 ih =>
    have hstep : lastAssign ((x :: L1) ++ l :: L2) k
        = (lastAssign (L1 ++ l :: L2) k).or (lineAssigns x k) := rfl
    rw [hstep, ih]
    rfl

/-- Last assignment wins: if line l assigns (k, v) and no later line
assigns k, the final store maps k to v. -/
theorem parseLines_last_wins (s : Store) (L1 L2 : List (List Char))
    (l : List Char) (k v : List Char)
    (hl : lineKV l = some (k, v))
    (h2 : ∀ x ∈ L2, (lineKV x).map Prod.fst ≠ some k) :
    parseLines s (L1 ++ l :: L2) k = some v := by
  rw [parseLines_lookup, lastAssign_append_last L1 L2 l k v hl h2]
  rfl

theorem fromEnvFields_loop (opts : Options) (store : Store) :
    ∀ (fs : List StructField) (a : List FieldValue) (b : List DecodeError),
      fs.foldl (fun acc f =>
        let r := decodeField opts store f
        (acc.1 ++ [r.1],
          match r.2 with
          | some e => acc.2 ++ [e]
          | none => acc.2)) (a, b)
      = (a ++ fs.map (fun f => (decodeField opts store f).1),
         b ++ fs.filterMap (fun f => (decodeField opts store f).2)) := by
  intro fs
  induction fs with
  | nil => intro a b; simp
  | cons f fs ih =>
    intro a b
    rw [List.foldl_cons]
    cases h : (decodeField opts store f).2 with
    | none => simp [h, ih, List.filterMap_cons, List.append_assoc]
    | some e => simp [h, ih, List.filterMap_cons, List.append_assoc]

/-- The fromEnv field loop computes, in declaration order, the per-field
values and the concatenation of the per-field error contributions. -/
theorem fromEnvFields_eq (opts : Options) (store : Store)
    (fs : List StructField) :
    fromEnvFields opts store fs
      = (fs.map (fun f => (decodeField opts store f).1),
         fs.filterMap (fun f => (decodeField opts store f).2)) := by
  unfold fromEnvFields
  rw [fromEnvFields_loop]
  simp

theorem goParseBool_getD (s : List Char) :
    (goParseBool s).getD false = decide (s ∈ truthyTokens) := by
  unfold goParseBool
  by_cases h : s ∈ truthyTokens
  · simp [h]
  · by_cases h2 : s ∈ falsyTokens <;> simp [h, h2]

theorem parseUintLoop_syntax : ∀ (l : List Char) (n : Nat),
    (parseUintLoop l n).2 = some NumErr.syntaxErr → (parseUintLoop l n).1 = 0 := by
  intro l
  induction l with
  | nil => intro n h; simp [parseUintLoop] at h
  | cons c rest ih =>
    intro n h
    simp only [parseUintLoop] at h ⊢
    split_ifs at h ⊢ with hd h1 h2
    · simp at h
    · simp at h
    · exact ih _ h
    · rfl

theorem parseUintLoop_range : ∀ (l : List Char) (n : Nat),
    (parseUintLoop l n).2 = some NumErr.rangeErr → (parseUintLoop l n).1 = maxUint64 := by
  intro l
  induction l with
  | nil => intro n h; simp [parseUintLoop] at h
  | cons c rest ih =>
    intro n h
    simp only [parseUintLoop] at h ⊢
    split_ifs at h ⊢ with hd h1 h2
    · rfl
    · rfl
    · exact ih _ h
    · simp at h

theorem goParseUint64_syntax (s : List Char)
    (h : (goParseUint64 s).2 = some NumErr.syntaxErr) : (goParseUint64 s).1 = 0 := by
  unfold goParseUint64 at h ⊢
  by_cases he : s.isEmpty
  · simp [he]
  · simp only [he, if_false] at h ⊢
    exact parseUintLoop_syntax s 0 h

theorem goParseUint64_range (s : List Char)
    (h : (goParseUint64 s).2 = some NumErr.rangeErr) : (goParseUint64 s).1 = maxUint64 := by
  unfold goParseUint64 at h ⊢
  by_cases he : s.isEmpty
  · simp [he] at h
  · simp only [he, if_false] at h ⊢
    exact parseUintLoop_range s 0 h

theorem goParseInt64_cases (s : List Char) :
    goParseInt64 s = (0, some NumErr.syntaxErr) ∨
    goParseInt64 s = (maxInt64, some NumErr.rangeErr) ∨
    goParseInt64 s = (minInt64, some NumErr.rangeErr) ∨
    (goParseInt64 s).2 = none := by
  unfold goParseInt64
  dsimp only
  split
  · left; rfl
  · split
    · left; rfl
    · split
      · right; left; rfl
      · split
        · right; right; left; rfl
        · right; right; right; rfl

theorem goParseInt64_syntax (s : List Char)
    (h : (goParseInt64 s).2 = some NumErr.syntaxErr) : (goParseInt64 s).1 = 0 := by
  rcases goParseInt64_cases s with h1 | h1 | h1 | h1
  · rw [h1]
  · rw [h1] at h; simp at h
  · rw [h1] at h; simp at h
  · rw [h1] at h; simp at h

theorem goParseInt64_range (s : List Char)
    (h : (goParseInt64 s).2 = some NumErr.rangeErr) :
    (goParseInt64 s).1 = maxInt64 ∨ (goParseInt64 s).1 = minInt64 := by
  rcases goParseInt64_cases s with h1 | h1 | h1 | h1
  · rw [h1] at h; simp at h
  · left; rw [h1]
  · right; rw [h1]
  · rw [h1] at h; simp at h

theorem wrapInt_range (w : Nat) (v : Int) :
    -(2 ^ (w - 1) : Int) ≤ wrapInt w v ∧ wrapInt w v < 2 ^ (w - 1) := by
  unfold wrapInt
  have h2 : (0 : Int) < 2 ^ w := by positivity
  have hr0 : 0 ≤ v % 2 ^ w := Int.emod_nonneg v (ne_of_gt h2)
  have hrlt : v % 2 ^ w < 2 ^ w := Int.emod_lt_of_pos v h2
  have hww : (2 : Int) ^ w ≤ 2 * 2 ^ (w - 1) := by
    cases w with
    | zero => norm_num
    | succ n => rw [pow_succ]; ring_nf; simp
  have hpos : (0 : Int) < 2 ^ (w - 1) := by positivity
  dsimp only
  split
  · rename_i hlt
    exact ⟨by linarith, hlt⟩
  · rename_i hge
    push_neg at hge
    exact ⟨by linarith, by linarith⟩

theorem zeroValue_compat (k : FieldKind) : kindCompatible k (zeroValue k) := by
  cases k with
  | bool => exact ⟨false, rfl⟩
  | int w =>
    refine ⟨0, rfl, ?_, ?_⟩
    · have : (0 : Int) < 2 ^ (w - 1) := by positivity
      linarith
    · positivity
  | uint w => exact ⟨0, rfl, by positivity⟩
  | float b => exact ⟨none, rfl⟩
  | string => exact ⟨[], rfl⟩
  | unsupported tn => rfl

theorem decodeValue_fst_compat (opts : Options) (envKey tagOpts : List Char)
    (k : FieldKind) (v : List Char) :
    kindCompatible k (decodeValue opts envKey tagOpts k v).1 := by
  unfold decodeValue
  dsimp only
  generalize (if opts.allowWhitespace = true then v else trimSpace v) = u
  split
  · exact zeroValue_compat k
  · cases k with
    | bool => exact ⟨_, rfl⟩
    | int w =>
      refine ⟨_, rfl, ?_, ?_⟩
      · exact (wrapInt_range w _).1
      · exact (wrapInt_range w _).2
    | uint w =>
      refine ⟨_, rfl, ?_⟩
      exact Nat.mod_lt _ (by positivity)
    | float b => exact ⟨_, rfl⟩
    | string => exact ⟨_, rfl⟩
    | unsupported tn => rfl

theorem decodeField_fst_compat (opts : Options) (store : Store)
    (f : StructField) : kindCompatible f.kind (decodeField opts store f).1 := by
  unfold decodeField
  split
  · exact zeroValue_compat f.kind
  · split
    · exact zeroValue_compat f.kind
    · dsimp only
      cases hsv : store (parseTag f.envTag).1 with
      | some ev =>
        simp only [hsv]
        exact decodeValue_fst_compat _ _ _ _ _
      | none =>
        simp only [hsv]
        split
        · exact decodeValue_fst_compat _ _ _ _ _
        · split
          · exact zeroValue_compat f.kind
          · exact zeroValue_compat f.kind

/-! The claims. -/

/-- C1: for every target struct type and every store state, fromEnv
visits every field in declaration order in a single pass and never
aborts early: the error collection is exactly the concatenation, in
field declaration order, of the per-field contributions, where a failing
field contributes its one error and a succeeding or skipped field
contributes nothing, and the populated record carries one value per
field. -/
theorem c1_single_pass_all_fields (opts : Options) (store : Store)
    (fields : List StructField) :
    fromEnv opts store (.structTy fields)
      = .returns (.record (fields.map fun f => (decodeField opts store f).1))
          (let errs := fields.filterMap fun f => (decodeField opts store f).2
           if errs.isEmpty then none else some (.collection errs)) := by
  simp only [fromEnv, fromEnvFields_eq]

/-- C2 counterexample: the claim quantifies over every valid assignment
line of the stream, but when a later line assigns the same key the store
ends up mapping the key to the later value.  Line A=1 is a valid
assignment line whose transformed value is 1, yet after parsing A=1
followed by A=2 the store maps A to 2. -/
theorem c2_counterexample_duplicate_key :
    lineKV "A=1".toList = some ("A".toList, "1".toList) ∧
    parseLines emptyStore ["A=1".toList, "A=2".toList] "A".toList ≠ some "1".toList ∧
    parseLines emptyStore ["A=1".toList, "A=2".toList] "A".toList = some "2".toList := by
  refine ⟨by decide, by decide, by decide⟩

/-- C2 amended: blank lines, comment lines and lines without an equals
sign never produce or change a store entry; and for every valid
assignment line after which no later line of the stream assigns the same
key, the final store maps the line's key (the text of the trimmed line
before its first equals sign, not further trimmed) to the text after the
first equals sign transformed by, in order, truncation at the first
space-hash occurrence, quote stripping, and backslash-n expansion. -/
theorem c2_amended_store_mapping :
    (∀ (s : Store) (raw : List Char),
      ((trimSpace raw).isEmpty = true ∨ startsWith ['#'] (trimSpace raw) = true ∨
        containsSub ['='] (trimSpace raw) = false) →
      processLine s raw = s) ∧
    (∀ (s : Store) (L1 L2 : List (List Char)) (raw : List Char) (i : Nat),
      (trimSpace raw).isEmpty = false →
      startsWith ['#'] (trimSpace raw) = false →
      indexOfSub ['='] (trimSpace raw) = some i →
      (∀ x ∈ L2, (lineKV x).map Prod.fst ≠ some ((trimSpace raw).take i)) →
      parseLines s (L1 ++ raw :: L2) ((trimSpace raw).take i)
        = some (expandNewlines (unquote
            (match indexOfSub [' ', '#'] ((trimSpace raw).drop (i + 1)) with
             | some j => ((trimSpace raw).drop (i + 1)).take j
             | none => (trimSpace raw).drop (i + 1))))) := by
  constructor
  · intro s raw hskip
    unfold processLine lineKV
    rcases hskip with h | h | h
    · simp [h]
    · simp [h]
    · simp [h]
  · intro s L1 L2 raw i h1 h2 h3 h4
    have hkv : lineKV raw
        = some ((trimSpace raw).take i,
            expandNewlines (unquote
              (match indexOfSub [' ', '#'] ((trimSpace raw).drop (i + 1)) with
               | some j => ((trimSpace raw).drop (i + 1)).take j
               | none => (trimSpace raw).drop (i + 1)))) := by
      unfold lineKV
      simp [containsSub, h1, h2, h3]
    exact parseLines_last_wins s L1 L2 raw _ _ hkv h4

theorem c2_amended_store_mapping_witness :
    processLine emptyStore "# comment".toList = emptyStore ∧
    parseLines emptyStore
        (["# c".toList] ++ "A='x\\ny' # note".toList :: ["B=2".toList])
        "A".toList
      = some "x\ny".toList := by
  constructor
  · exact c2_amended_store_mapping.1 emptyStore "# comment".toList (by decide)
  · exact c2_amended_store_mapping.2 emptyStore ["# c".toList] ["B=2".toList]
      "A='x\\ny' # note".toList 1 (by decide) (by decide) (by decide) (by decide)

/-- C3 counterexample: on a range overflow strconv.ParseInt returns the
saturated 64-bit bound, not zero, and fromEnv stores it: decoding the
value 9223372036854775808 (2 to the 63rd) into an int field yields
maxInt64, not zero, although the parse failed with a range error. -/
theorem c3_counterexample_range_overflow :
    (goParseInt64 "9223372036854775808".toList).2 = some NumErr.rangeErr ∧
    decodeValue ⟨false, false, false⟩ "N".toList [] (.int 64)
        "9223372036854775808".toList
      = (.vint maxInt64, none) ∧
    maxInt64 ≠ 0 := by
  refine ⟨by decide, by decide, by decide⟩

/-- C3 amended: for every boolean field exactly the tokens 1, t, T,
TRUE, true, True set it true, every other token (including the falsy
set) leaves it false, the zero value, with no error contributed; for
signed and unsigned integer fields the non-empty resolved value is
parsed in base 10 with no error surfaced; on a syntax failure the parsed
value is zero, while on a range overflow it saturates at maxInt64 or
minInt64 (respectively maxUint64) before being truncated into the
field's width. -/
theorem c3_amended_conversion (opts : Options) (envKey tagOpts v : List Char)
    (w : Nat)
    (h : (if opts.allowWhitespace = true then v else trimSpace v).isEmpty = false) :
    decodeValue opts envKey tagOpts .bool v
      = (.vbool (decide ((if opts.allowWhitespace = true then v
            else trimSpace v) ∈ truthyTokens)), none) ∧
    decodeValue opts envKey tagOpts (.int w) v
      = (.vint (wrapInt w (goParseInt64 (if opts.allowWhitespace = true then v
          else trimSpace v)).1), none) ∧
    decodeValue opts envKey tagOpts (.uint w) v
      = (.vuint ((goParseUint64 (if opts.allowWhitespace = true then v
          else trimSpace v)).1 % 2 ^ w), none) ∧
    ((goParseInt64 (if opts.allowWhitespace = true then v
        else trimSpace v)).2 = some NumErr.syntaxErr →
      (goParseInt64 (if opts.allowWhitespace = true then v
        else trimSpace v)).1 = 0) ∧
    ((goParseInt64 (if opts.allowWhitespace = true then v
        else trimSpace v)).2 = some NumErr.rangeErr →
      (goParseInt64 (if opts.allowWhitespace = true then v
        else trimSpace v)).1 = maxInt64 ∨
      (goParseInt64 (if opts.allowWhitespace = true then v
        else trimSpace v)).1 = minInt64) ∧
    ((goParseUint64 (if opts.allowWhitespace = true then v
        else trimSpace v)).2 = some NumErr.syntaxErr →
      (goParseUint64 (if opts.allowWhitespace = true then v
        else trimSpace v)).1 = 0) ∧
    ((goParseUint64 (if opts.allowWhitespace = true then v
        else trimSpace v)).2 = some NumErr.rangeErr →
      (goParseUint64 (if opts.allowWhitespace = true then v
        else trimSpace v)).1 = maxUint64) := by
  refine ⟨?_, ?_, ?_, goParseInt64_syntax _, goParseInt64_range _,
    goParseUint64_syntax _, goParseUint64_range _⟩
  · unfold decodeValue
    dsimp only
    rw [if_neg (by simp [h]), goParseBool_getD]
  · unfold decodeValue
    dsimp only
    rw [if_neg (by simp [h])]
  · unfold decodeValue
    dsimp only
    rw [if_neg (by simp [h])]

theorem c3_amended_conversion_witness :
    ((if (⟨false, false, false⟩ : Options).allowWhitespace = true
        then " True ".toList else trimSpace " True ".toList).isEmpty = false) ∧
    decodeValue ⟨false, false, false⟩ "K".toList [] .bool " True ".toList
      = (.vbool true, none) := by
  refine ⟨by decide, ?_⟩
  have hmain := c3_amended_conversion ⟨false, false, false⟩ "K".toList []
    " True ".toList 64 (by decide)
  rw [hmain.1]
  decide

/-- C4: the claim says a settable field without an env tag contributes
exactly one MissingStructTag error whenever EnforceStructTags is passed,
including through FromFileName when the file opens successfully.  The
code forwards no options to FromReader on the successful-open path, so
the same target and options yield no error through FromFileName with an
existing file, while FromReader itself (with the options) yields exactly
the one MissingStructTag error the claim demands. -/
theorem c4_fromFileName_drops_options :
    (FromFileName (some []) [DecodeOption.enforceStructTags] emptyStore
        (.structTy [⟨"ForgotToAddStructTag".toList, true, [], [], .string⟩])).2
      = .returns (.record [.vstring []]) none ∧
    (FromReader [] [DecodeOption.enforceStructTags] emptyStore
        (.structTy [⟨"ForgotToAddStructTag".toList, true, [], [], .string⟩])).2
      = .returns (.record [.vstring []])
          (some (.collection [.missingStructTag "ForgotToAddStructTag".toList])) := by
  refine ⟨by decide, by decide⟩

/-- C5: for a settable, tagged field whose declared key is absent from
the store: a non-empty default literal is used as the value; otherwise
with the optional modifier the field is skipped with no error at its
zero value; otherwise exactly one MissingEnvVar error is emitted and the
field keeps its zero value.  When the key is present — even mapping to
the empty string — the result is the conversion of the stored value and
the default literal is never consulted. -/
theorem c5_absent_key_behavior (opts : Options) (store : Store) (f : StructField)
    (hset : f.canSet = true) (htag : f.envTag.isEmpty = false) :
    (store (parseTag f.envTag).1 = none →
      ((f.defaultTag.isEmpty = false →
        decodeField opts store f
          = decodeValue opts (parseTag f.envTag).1 (parseTag f.envTag).2
              f.kind f.defaultTag) ∧
       (f.defaultTag.isEmpty = true →
        tagContains (parseTag f.envTag).2 optionalOpt = true →
        decodeField opts store f = (zeroValue f.kind, none)) ∧
       (f.defaultTag.isEmpty = true →
        tagContains (parseTag f.envTag).2 optionalOpt = false →
        decodeField opts store f
          = (zeroValue f.kind,
             some (.missingEnvVar (parseTag f.envTag).1))))) ∧
    (∀ ev, store (parseTag f.envTag).1 = some ev →
      decodeField opts store f
        = decodeValue opts (parseTag f.envTag).1 (parseTag f.envTag).2 f.kind ev) := by
  constructor
  · intro hsv
    refine ⟨?_, ?_, ?_⟩
    · intro hd
      unfold decodeField
      simp [hset, htag, hsv, hd]
    · intro hd hopt
      unfold decodeField
      simp [hset, htag, hsv, hd, hopt]
    · intro hd hopt
      unfold decodeField
      simp [hset, htag, hsv, hd, hopt]
  · intro ev hsv
    unfold decodeField
    simp [hset, htag, hsv]

theorem c5_absent_key_behavior_witness :
    decodeField ⟨false, false, false⟩ emptyStore
        ⟨"F".toList, true, "KEY".toList, "dflt".toList, .string⟩
      = decodeValue ⟨false, false, false⟩ (parseTag "KEY".toList).1
          (parseTag "KEY".toList).2 .string "dflt".toList := by
  exact ((c5_absent_key_behavior ⟨false, false, false⟩ emptyStore
    ⟨"F".toList, true, "KEY".toList, "dflt".toList, .string⟩
    (by decide) (by decide)).1 rfl).1 (by decide)

/-- C6: for every field whose resolved value is the empty string (after
trimming unless AllowWhitespace is set), exactly one
MissingRequiredField error is contributed when the required modifier is
present and none otherwise, the field is left at its zero value in all
cases, and the empty value is never passed to type conversion. -/
theorem c6_empty_value_behavior (opts : Options) (envKey tagOpts : List Char)
    (kind : FieldKind) (v : List Char)
    (h : (if opts.allowWhitespace = true then v else trimSpace v).isEmpty = true) :
    decodeValue opts envKey tagOpts kind v
      = (zeroValue kind,
         if tagContains tagOpts requiredOpt = true
         then some (.missingRequiredField envKey) else none) := by
  unfold decodeValue
  dsimp only
  rw [if_pos h]

theorem c6_empty_value_behavior_witness :
    decodeValue ⟨false, false, false⟩ "KEY".toList "required".toList .string
        "  ".toList
      = (.vstring [], some (.missingRequiredField "KEY".toList)) := by
  rw [c6_empty_value_behavior ⟨false, false, false⟩ "KEY".toList
    "required".toList .string "  ".toList (by decide)]
  decide

/-- C7 counterexample: for an interface target type the claim demands an
immediate return of the zero value with the ConfigMustBeStruct error,
but reflect.TypeOf of the nil interface zero value is the nil type
descriptor and calling Kind on it panics. -/
theorem c7_counterexample_interface_panics :
    fromEnv ⟨false, false, false⟩ emptyStore .interfaceTy = .panics ∧
    fromEnv ⟨false, false, false⟩ emptyStore .interfaceTy
      ≠ .returns .zeroOfNonStruct (some .configMustBeStruct) := by
  refine ⟨by decide, by decide⟩

/-- C7 amended: for every target type whose kind is neither a struct
nor an interface (pointers included), decoding short-circuits
immediately with the zero value of the type and exactly the
ConfigMustBeStruct error, with no per-field entries; for an interface
target the decode instead panics on the nil type descriptor. -/
theorem c7_amended_non_struct_short_circuit :
    (∀ (opts : Options) (store : Store) (name : List Char),
      fromEnv opts store (.nonStructTy name)
        = .returns .zeroOfNonStruct (some .configMustBeStruct)) ∧
    (∀ (opts : Options) (store : Store),
      fromEnv opts store .interfaceTy = .panics) := by
  exact ⟨fun _ _ _ => rfl, fun _ _ => rfl⟩

/-- C8: parsing the same stream twice yields the same final store state
as parsing it once, and for a key assigned on several lines the value
stored at the end is the one of the last such line (no later line
assigns the key). -/
theorem c8_idempotent_last_wins :
    (∀ (s : Store) (L : List (List Char)),
      parseLines (parseLines s L) L = parseLines s L) ∧
    (∀ (s : Store) (L1 L2 : List (List Char)) (l k v : List Char),
      lineKV l = some (k, v) →
      (∀ x ∈ L2, (lineKV x).map Prod.fst ≠ some k) →
      parseLines s (L1 ++ l :: L2) k = some v) := by
  constructor
  · intro s L
    funext k
    rw [parseLines_lookup, parseLines_lookup]
    cases lastAssign L k <;> rfl
  · intro s L1 L2 l k v hl h2
    exact parseLines_last_wins s L1 L2 l k v hl h2

theorem c8_idempotent_last_wins_witness :
    parseLines (parseLines emptyStore ["A=1".toList]) ["A=1".toList]
      = parseLines emptyStore ["A=1".toList] ∧
    parseLines emptyStore (["A=1".toList] ++ "A=2".toList :: []) "A".toList
      = some "2".toList :=
  ⟨c8_idempotent_last_wins.1 emptyStore ["A=1".toList],
   c8_idempotent_last_wins.2 emptyStore ["A=1".toList] [] "A=2".toList
     "A".toList "2".toList (by decide) (by decide)⟩

/-- C9: for every target struct type and every store contents the decode
pass is total: it returns a populated record with one value per field
and an error collection, never panicking, and every decoded signed or
unsigned integer value lies within the declared field width even when
the stored text parses as a 64-bit integer exceeding the narrower
field's range. -/
theorem c9_decode_total_in_range (opts : Options) (store : Store)
    (fields : List StructField) :
    ∃ vals errOpt,
      fromEnv opts store (.structTy fields) = .returns (.record vals) errOpt ∧
      vals.length = fields.length ∧
      List.Forall₂ (fun f v => kindCompatible f.kind v) fields vals := by
  refine ⟨fields.map fun f => (decodeField opts store f).1,
    (if (fields.filterMap fun f => (decodeField opts store f).2).isEmpty
     then none
     else some (.collection (fields.filterMap fun f => (decodeField opts store f).2))),
    ?_, ?_, ?_⟩
  · simp only [fromEnv, fromEnvFields_eq]
  · simp
  · induction fields with
    | nil => exact List.Forall₂.nil
    | cons f fs ih => exact List.Forall₂.cons (decodeField_fst_compat opts store f) ih

/-- C10 counterexample: the claim says Errors returns nil exactly when
the input error is nil, but for the non-nil error joinError with a nil
errs slice the function returns that nil slice. -/
theorem c10_counterexample_nil_collection :
    Errors (some (.joined none)) = none ∧
    some (GoErrVal.joined none) ≠ (none : Option GoErrVal) :=
  ⟨rfl, by simp⟩

/-- C10 amended: Errors of nil is nil; Errors of a non-collection error
is the one-element slice holding that error; Errors of a collection is
the collection's errs slice in original order; consequently the result
is nil exactly when the input is nil or is a collection whose errs slice
is nil. -/
theorem c10_amended_errors_extraction :
    Errors none = none ∧
    (∀ t, Errors (some (.simple t)) = some [.simple t]) ∧
    (∀ es, Errors (some (.joined es)) = es) ∧
    (∀ e, Errors e = none ↔ e = none ∨ e = some (.joined none)) := by
  refine ⟨rfl, fun t => rfl, fun es => rfl, ?_⟩
  intro e
  cases e with
  | none => simp [Errors, extractErrors]
  | some ev =>
    cases ev with
    | simple t => simp [Errors, extractErrors]
    | joined es =>
      cases es with
      | none => simp [Errors, extractErrors]
      | some l => simp [Errors, extractErrors]

end Dotconfig
